import Mathlib

/-!
Verification development for the feature-verification harness of the
`skillbox` repository.

The Python sources embedded here (shallowly, as pure Lean functions) are:

* `plugins/core/scripts/hooks/lib/features.py` — the feature registry:
  `FeatureStatus`, `Feature`, `FeatureList` and its operations
  `add_feature`, `get_feature`, `update_status`, `get_summary`,
  `all_verified`, `get_unverified`, `get_implemented_unverified`,
  `get_next_feature`, and `FeatureList.load`.
* `plugins/core/scripts/hooks/stop-verification.py` — the session-stop
  verification gate (`main`).
* `plugins/core/scripts/hooks/lib/bootstrap.py` — `increment_session`.
* `plugins/skillbox/scripts/hooks/lib/checkpoint.py` —
  `get_modified_files`, `_is_likely_file_path`, `find_recent_checkpoint`.

Conventions of the embedding:

* `datetime.now().isoformat()` is modelled by an explicit `now : String`
  argument threaded into the operations that stamp timestamps.
* Calls to the external `bd` (beads) tracker CLI are subprocesses whose
  results never feed back into registry state except as the optional
  `beads_id` string returned by `_create_beads_task`; that result is
  modelled as an explicit `beads_id : Option String` argument.
* Filesystem reads (existence check + JSON parse) are modelled by a
  three-way input describing what the read found: file missing, file
  present but unparsable, or file present and well formed.
-/

/-- Feature lifecycle states, from `FeatureStatus` in `features.py`. -/
inductive FeatureStatus where
  | pending
  | in_progress
  | implemented
  | verified
  | failed
deriving DecidableEq, Repr

/-- A single trackable feature, from the `Feature` dataclass in `features.py`.
Optional fields default to `None` in the source; here they are explicit
`Option` values. -/
structure Feature where
  id : String
  description : String
  status : FeatureStatus
  verification : Option String
  beads_id : Option String
  last_verified : Option String
  verification_output : Option String
deriving DecidableEq, Repr

/-- The registry document, from the `FeatureList` class in `features.py`
(`version`, `created`, `updated`, ordered `features`). -/
structure FeatureList where
  version : String
  created : String
  updated : String
  features : List Feature
deriving DecidableEq, Repr

/-- What reading the registry file finds, before `FeatureList.load` reacts
to it: the file may be missing (`path.exists()` false), present but not
parsable as a well-formed registry (a `json.JSONDecodeError`, `KeyError`
or `ValueError` during parsing), or present and well formed, in which case
the parsed fields are available. -/
inductive LoadSource where
  | missing
  | unparsable (raw : String)
  | wellFormed (version created updated : String) (features : List Feature)
deriving DecidableEq, Repr

/-- `FeatureList.load` from `features.py`: returns `None` if the file does
not exist, returns `None` on any parse failure, and otherwise returns the
parsed document. -/
def FeatureList.load : LoadSource → Option FeatureList
  | .missing => none
  | .unparsable _ => none
  | .wellFormed v c u fs => some ⟨v, c, u, fs⟩

/-- `FeatureList.add_feature` from `features.py`: builds a new `Feature`
with status `PENDING` and appends it to `self.features`, returning the
created feature. The source performs no duplicate-id check. The optional
beads task id obtained from `_create_beads_task` (an external subprocess,
`None` when beads is unavailable or `auto_create_beads` is false) is the
`beads_id` argument. -/
def FeatureList.add_feature (fl : FeatureList) (feature_id description : String)
    (verification : Option String) (beads_id : Option String) :
    FeatureList × Feature :=
  let feature : Feature := ⟨feature_id, description, .pending, verification, beads_id, none, none⟩
  (⟨fl.version, fl.created, fl.updated, fl.features ++ [feature]⟩, feature)

/-- `FeatureList.get_feature` from `features.py`: first feature whose `id`
matches, if any. -/
def FeatureList.get_feature (fl : FeatureList) (feature_id : String) : Option Feature :=
  fl.features.find? (fun f => f.id == feature_id)

/-- The mutation `update_status` performs on the feature it found:
`feature.status = status`, and when the new status is `VERIFIED` or
`FAILED` also `feature.last_verified = now` and
`feature.verification_output = verification_output`. -/
def applyUpdate (f : Feature) (status : FeatureStatus)
    (verification_output : Option String) (now : String) : Feature :=
  if status = .verified ∨ status = .failed then
    ⟨f.id, f.description, status, f.verification, f.beads_id, some now, verification_output⟩
  else
    ⟨f.id, f.description, status, f.verification, f.beads_id, f.last_verified, f.verification_output⟩

/-- Replace the first element satisfying `p` by its image under `g`,
reporting whether one was found. This is how the in-place mutation of the
object returned by `get_feature` acts on the feature list of the registry. -/
def updateFirst (p : Feature → Bool) (g : Feature → Feature) :
    List Feature → List Feature × Bool
  | [] => ([], false)
  | f :: rest =>
    if p f then (g f :: rest, true)
    else
      let r := updateFirst p g rest
      (f :: r.1, r.2)

/-- `FeatureList.update_status` from `features.py`: looks the feature up
with `get_feature` (first id match); if absent returns `False`; otherwise
mutates that one feature object (see `applyUpdate`) and returns `True`.
The beads side effects (`_close_beads_task`, `_update_beads_status`) are
fire-and-forget subprocesses that change no registry state and are
therefore not part of the returned value. -/
def FeatureList.update_status (fl : FeatureList) (feature_id : String)
    (status : FeatureStatus) (verification_output : Option String) (now : String) :
    FeatureList × Bool :=
  let r := updateFirst (fun f => f.id == feature_id)
    (fun f => applyUpdate f status verification_output now) fl.features
  (⟨fl.version, fl.created, fl.updated, r.1⟩, r.2)

/-- `FeatureList.get_implemented_unverified` from `features.py`: features
with status `IMPLEMENTED`, in registry order. -/
def FeatureList.get_implemented_unverified (fl : FeatureList) : List Feature :=
  fl.features.filter (fun f => f.status == .implemented)

/-- `FeatureList.get_next_feature` from `features.py`: for each status in
priority order `IN_PROGRESS`, `PENDING`, `IMPLEMENTED`, return the first
feature carrying it; `None` when no feature is in any of the three. -/
def FeatureList.get_next_feature (fl : FeatureList) : Option Feature :=
  match fl.features.find? (fun f => f.status == .in_progress) with
  | some f => some f
  | none =>
    match fl.features.find? (fun f => f.status == .pending) with
    | some f => some f
    | none => fl.features.find? (fun f => f.status == .implemented)

/-- Outcome of the stop hook, abstracting `lib/response.py`: `allow`
prints the empty-JSON allow envelope; `block` prints the Stop-family
block envelope whose reason/context names the listed features. The
markdown rendering of the named features into the context string is
presentation and is elided; the `named` list records which features the
message names, in order. -/
inductive StopDecision where
  | allow
  | block (reason : String) (named : List Feature)
deriving DecidableEq, Repr

/-- `main` of `stop-verification.py`, as a function of what the
environment provides: whether `is_harness_initialized` found
`.claude/harness.json` (`initialized`), and the result of
`load_features` (`loaded`, `none` when the file is missing or fails to
parse). Checks, in order: harness not initialized → allow; registry not
loaded → allow; implemented-but-unverified features → block naming the
first 5; failed features → block naming the first 3; otherwise allow. -/
def stop_verification (initialized : Bool) (loaded : Option FeatureList) : StopDecision :=
  if initialized = false then .allow
  else
    match loaded with
    | none => .allow
    | some features =>
      let unverified := features.get_implemented_unverified
      if unverified.isEmpty = false then
        .block "Unverified features detected" (unverified.take 5)
      else
        let failed := features.features.filter (fun f => f.status == .failed)
        if failed.isEmpty = false then
          .block "Failed verifications detected" (failed.take 3)
        else .allow

/-- `c in s` on Python strings, computed on the character list so that it
evaluates inside the kernel. -/
def strContains (s : String) (c : Char) : Bool :=
  s.data.contains c

/-- `s.startswith(pre)` on Python strings, on the character list. -/
def strStartsWith (s pre : String) : Bool :=
  pre.data.isPrefixOf s.data

/-- `s.endswith(suf)` on Python strings, on the character list. -/
def strEndsWith (s suf : String) : Bool :=
  suf.data.isSuffixOf s.data

/-- `len(s)` on Python strings (code points), on the character list. -/
def strLen (s : String) : Nat :=
  s.data.length

/-- `_is_likely_file_path` from `checkpoint.py`: a candidate string is a
path only if it contains a dot or a slash, does not start with `http` or
`git@`, and is at most 200 characters long. -/
def is_likely_file_path (s : String) : Bool :=
  if strContains s '.' = false && strContains s '/' = false then false
  else if strStartsWith s "http" || strStartsWith s "git@" then false
  else if strLen s > 200 then false
  else true

/-- One transcript message, modelled by the capture groups the four regular
expressions of `get_modified_files` (`checkpoint.py`) produce on
`str(msg.get("content", ""))`, each in `finditer` order:
`writeMatches` for `Write.*?file_path["\s:]+([^\s"]+)`,
`editMatches` for `Edit.*?file_path["\s:]+([^\s"]+)`,
`createdMatches` for the created/wrote natural-language pattern, and
`modifiedMatches` for the modified/updated/edited pattern. -/
structure TranscriptMsg where
  writeMatches : List String
  editMatches : List String
  createdMatches : List String
  modifiedMatches : List String
deriving DecidableEq, Repr

/-- The dictionary update `modified[path] = action` guarded by
`if path not in modified`, on an insertion-ordered association list (the
order in which `dict.items()` is enumerated at the end). -/
def insertIfAbsent (m : List (String × String)) (path action : String) :
    List (String × String) :=
  if m.any (fun q => q.1 == path) then m else m ++ [(path, action)]

/-- Processing of one transcript message inside the loop of
`get_modified_files`: Write-tool matches recorded as `created`, Edit-tool
matches as `modified`, then the natural-language matches, which are
additionally gated by `_is_likely_file_path`; every record goes through
the `path not in modified` guard. -/
def processMsg (acc : List (String × String)) (msg : TranscriptMsg) :
    List (String × String) :=
  let a1 := msg.writeMatches.foldl (fun a p => insertIfAbsent a p "created") acc
  let a2 := msg.editMatches.foldl (fun a p => insertIfAbsent a p "modified") a1
  let a3 := msg.createdMatches.foldl
    (fun a p => if is_likely_file_path p then insertIfAbsent a p "created" else a) a2
  msg.modifiedMatches.foldl
    (fun a p => if is_likely_file_path p then insertIfAbsent a p "modified" else a) a3

/-- `get_modified_files` from `checkpoint.py`: scan the messages in order,
building the `modified` dict, and return its items in insertion order. -/
def get_modified_files (transcript : List TranscriptMsg) : List (String × String) :=
  transcript.foldl processMsg []

/-- A file in the `.serena/memories` directory as `find_recent_checkpoint`
sees it: name and `stat().st_mtime` (seconds). A file whose `stat` raises
`OSError` is skipped by the source and is modelled as absent from the
listing. -/
structure MemFile where
  name : String
  mtime : Int
deriving DecidableEq, Repr

/-- The glob pattern `auto-checkpoint-*.md` on a flat file name: the fixed
prefix, the fixed suffix, and enough length that prefix and suffix do not
overlap (`*` may match the empty string). -/
def matchesAutoPattern (n : String) : Bool :=
  strStartsWith n "auto-checkpoint-" && strEndsWith n ".md" &&
    decide (strLen "auto-checkpoint-" + strLen ".md" ≤ strLen n)

/-- The glob pattern `checkpoint-*.md` on a flat file name. -/
def matchesManualPattern (n : String) : Bool :=
  strStartsWith n "checkpoint-" && strEndsWith n ".md" &&
    decide (strLen "checkpoint-" + strLen ".md" ≤ strLen n)

/-- `find_recent_checkpoint` from `checkpoint.py`: `None` if the memories
directory does not exist; otherwise, for the patterns
`auto-checkpoint-*.md` then `checkpoint-*.md`, return the first file in
directory-enumeration order (`listing` models the order `glob` yields)
whose age `now - mtime` is strictly below `max_age_hours * 3600`. -/
def find_recent_checkpoint (dirExists : Bool) (listing : List MemFile)
    (now : Int) (max_age_hours : Int) : Option MemFile :=
  if dirExists = false then none
  else
    let maxAge := max_age_hours * 3600
    match (listing.filter (fun f => matchesAutoPattern f.name)).find?
        (fun f => now - f.mtime < maxAge) with
    | some f => some f
    | none =>
      (listing.filter (fun f => matchesManualPattern f.name)).find?
        (fun f => now - f.mtime < maxAge)

/-- One session record in `harness.json` (`id`, `started`, and the JSON
field `"type"`, here called `kind` because `type` is reserved). -/
structure HarnessSession where
  id : Nat
  started : String
  kind : String
deriving DecidableEq, Repr

/-- The parsed `harness.json` document, as `create_harness_state` writes it
and `increment_session` reads it. A document missing the `"sessions"` key
is modelled with `sessions = []`, matching `harness.get("sessions", [])`. -/
structure HarnessDoc where
  version : String
  created : String
  project_type : Option String
  initialized : Bool
  sessions : List HarnessSession
deriving DecidableEq, Repr

/-- State of the `harness.json` file as `increment_session` finds it:
missing, present but raising `json.JSONDecodeError`/`OSError` on read
(carrying its raw bytes), or parsed. -/
inductive HarnessFileState where
  | missing
  | unparsable (raw : String)
  | parsed (doc : HarnessDoc)
deriving DecidableEq, Repr

/-- `increment_session` from `bootstrap.py`: returns `1` when the file is
missing; returns `1` when reading/parsing fails, before any write, so the
file is left as it was; otherwise appends a `type = "coding"` session with
id `len(sessions) + 1`, writes the document back, and returns the new id. -/
def increment_session (state : HarnessFileState) (now : String) :
    HarnessFileState × Nat :=
  match state with
  | .missing => (.missing, 1)
  | .unparsable raw => (.unparsable raw, 1)
  | .parsed doc =>
    let newId := doc.sessions.length + 1
    (.parsed ⟨doc.version, doc.created, doc.project_type, doc.initialized,
      doc.sessions ++ [⟨newId, now, "coding"⟩]⟩, newId)

/-- The `(path, action)` signals one message contributes, in the order the
loop body of `get_modified_files` processes them: Write-tool matches as
`created`, Edit-tool matches as `modified`, then the natural-language
matches that pass `_is_likely_file_path`, as `created` resp. `modified`. -/
def msgSignals (msg : TranscriptMsg) : List (String × String) :=
  msg.writeMatches.map (fun p => (p, "created"))
    ++ msg.editMatches.map (fun p => (p, "modified"))
    ++ (msg.createdMatches.filter is_likely_file_path).map (fun p => (p, "created"))
    ++ (msg.modifiedMatches.filter is_likely_file_path).map (fun p => (p, "modified"))

/-- All signals of a transcript, message by message in order. -/
def transcriptSignals (t : List TranscriptMsg) : List (String × String) :=
  t.flatMap msgSignals

/-- Stated from the words of the claim, for comparison with
`get_modified_files`: deduplicate a signal list by path with the first
occurrence winning — keep a signal only when its path was not seen
before, and record it as seen. -/
def dedupFirst (seen : List String) : List (String × String) → List (String × String)
  | [] => []
  | s :: rest =>
    if seen.any (fun k => k == s.1) then dedupFirst seen rest
    else s :: dedupFirst (s.1 :: seen) rest

/-- If `p` holds for no element of `l₁` and holds for `f`, then
`updateFirst` rewrites exactly `f` and reports success. -/
theorem updateFirst_append (p : Feature → Bool) (g : Feature → Feature)
    (l₁ : List Feature) (f : Feature) (l₂ : List Feature)
    (h₁ : ∀ x ∈ l₁, p x = false) (hf : p f = true) :
    updateFirst p g (l₁ ++ f :: l₂) = (l₁ ++ g f :: l₂, true) := by
  induction l₁ with
  | nil => simp [updateFirst, hf]
  | cons a t ih =>
    have ha : p a = false := h₁ a (by simp)
    have ih' := ih (fun x hx => h₁ x (by simp [hx]))
    simp [updateFirst, ha, ih']

/-- C2 (amended): `add_feature` performs no duplicate check: for every
registry and every id — also one already present — the call succeeds,
appends a new feature whose status is `pending`, and the number of
features carrying that id grows by one. -/
theorem add_feature_always_appends (fl : FeatureList)
    (feature_id description : String) (verification beads_id : Option String) :
    fl.add_feature feature_id description verification beads_id
      = (⟨fl.version, fl.created, fl.updated,
          fl.features ++
            [⟨feature_id, description, .pending, verification, beads_id, none, none⟩]⟩,
         ⟨feature_id, description, .pending, verification, beads_id, none, none⟩) ∧
    ((fl.add_feature feature_id description verification beads_id).1.features.filter
        (fun f => f.id == feature_id)).length
      = (fl.features.filter (fun f => f.id == feature_id)).length + 1 := by
  refine ⟨rfl, ?_⟩
  simp [FeatureList.add_feature]

/-- C2 (counterexample): adding id `"a"` to a registry that already holds a
feature `"a"` does not fail and does not leave the registry unchanged: the
registry afterwards holds two features with id `"a"`. -/
theorem add_feature_duplicate_cex :
    ((FeatureList.mk "1.0.0" "c" "u"
        [⟨"a", "first", .pending, none, none, none, none⟩]).add_feature
        "a" "second" none none).1.features.map (fun f => f.id) = ["a", "a"] := by
  decide

/-- C3 (amended): `load` yields `none` for a missing file and also `none`
for unparsable content — the corrupt outcome is the same value as the
missing-file outcome, not a distinguishable one — while well-formed
content yields the parsed registry. -/
theorem load_outcomes :
    FeatureList.load .missing = none ∧
    (∀ raw, FeatureList.load (.unparsable raw) = none) ∧
    (∀ v c u fs, FeatureList.load (.wellFormed v c u fs) = some ⟨v, c, u, fs⟩) ∧
    (∀ raw, FeatureList.load (.unparsable raw) = FeatureList.load .missing) :=
  ⟨rfl, fun _ => rfl, fun _ _ _ _ => rfl, fun _ => rfl⟩

/-- C3 (counterexample): loading a file holding the unparsable content
`"\x7bnot json"` produces exactly the same outcome as loading a missing
file, so a corrupt file is indistinguishable from an uninitialized
project. -/
theorem load_corrupt_equals_missing_cex :
    FeatureList.load (.unparsable "\x7bnot json") = FeatureList.load .missing := rfl

/-- C4 (amended): for the first feature carrying the requested id, a
transition into `verified` or `failed` sets `last_verified := now` and
`verification_output :=` the supplied argument — which may be `none`, in
which case `last_verified` is present while `verification_output` is
absent; the both-present pairing therefore holds only when a
`verification_output` is supplied. All other fields and features keep
their prior values. -/
theorem update_status_verifying_sets_stamp
    (fl : FeatureList) (feature_id : String) (status : FeatureStatus)
    (out : Option String) (now : String)
    (l₁ l₂ : List Feature) (f : Feature)
    (hdec : fl.features = l₁ ++ f :: l₂)
    (hbefore : ∀ x ∈ l₁, (x.id == feature_id) = false)
    (hf : f.id = feature_id)
    (hst : status = .verified ∨ status = .failed) :
    fl.update_status feature_id status out now
      = (⟨fl.version, fl.created, fl.updated,
          l₁ ++ ⟨f.id, f.description, status, f.verification, f.beads_id,
            some now, out⟩ :: l₂⟩, true) := by
  unfold FeatureList.update_status
  rw [hdec, updateFirst_append _ _ l₁ f l₂ hbefore (by simp [hf])]
  simp [applyUpdate, hst]

/-- C4 (witness): on a one-feature registry, updating `"a"` to `failed`
with output `"boom"` stamps both fields. -/
theorem update_status_verifying_sets_stamp_witness :
    (FeatureList.mk "1.0.0" "c" "u"
        [⟨"a", "da", .implemented, none, none, none, none⟩]).update_status
        "a" .failed (some "boom") "T"
      = (⟨"1.0.0", "c", "u",
          [⟨"a", "da", .failed, none, none, some "T", some "boom"⟩]⟩, true) :=
  update_status_verifying_sets_stamp _ "a" .failed (some "boom") "T"
    [] [] ⟨"a", "da", .implemented, none, none, none, none⟩
    rfl (by simp) rfl (Or.inr rfl)

/-- C4 (counterexample): transitioning a feature into `verified` with no
`verification_output` argument leaves the registry with `last_verified`
present and `verification_output` absent — one without the other, so the
both-absent-or-both-present invariant does not survive every sequence of
`update_status` calls. -/
theorem update_status_stamp_without_output_cex :
    (((FeatureList.mk "1.0.0" "c" "u"
        [⟨"a", "da", .implemented, none, none, none, none⟩]).update_status
        "a" .verified none "2024-01-01T00:00:00").1.features.map
          (fun f => (f.last_verified, f.verification_output)))
      = [(some "2024-01-01T00:00:00", none)] := by
  decide

/-- C9: for a target status other than `verified`/`failed`, `update_status`
rewrites only the `status` of the found feature: its `id`, `description`,
`verification`, `beads_id`, `last_verified` and `verification_output` keep
their prior values, and every other feature (and the other document
fields) is unchanged. -/
theorem update_status_nonverifying_frame
    (fl : FeatureList) (feature_id : String) (status : FeatureStatus)
    (out : Option String) (now : String)
    (l₁ l₂ : List Feature) (f : Feature)
    (hdec : fl.features = l₁ ++ f :: l₂)
    (hbefore : ∀ x ∈ l₁, (x.id == feature_id) = false)
    (hf : f.id = feature_id)
    (hst : status = .pending ∨ status = .in_progress ∨ status = .implemented) :
    fl.update_status feature_id status out now
      = (⟨fl.version, fl.created, fl.updated,
          l₁ ++ ⟨f.id, f.description, status, f.verification, f.beads_id,
            f.last_verified, f.verification_output⟩ :: l₂⟩, true) := by
  have hnv : ¬(status = .verified ∨ status = .failed) := by
    rcases hst with h | h | h <;> subst h <;> simp
  unfold FeatureList.update_status
  rw [hdec, updateFirst_append _ _ l₁ f l₂ hbefore (by simp [hf])]
  simp [applyUpdate, hnv]

/-- C9 (witness): moving a pending feature to `in_progress` changes only
its status. -/
theorem update_status_nonverifying_frame_witness :
    (FeatureList.mk "1.0.0" "c" "u"
        [⟨"a", "da", .pending, some "go test", none, none, none⟩,
         ⟨"b", "db", .verified, none, none, some "T0", some "ok"⟩]).update_status
        "a" .in_progress none "T"
      = (⟨"1.0.0", "c", "u",
          [⟨"a", "da", .in_progress, some "go test", none, none, none⟩,
           ⟨"b", "db", .verified, none, none, some "T0", some "ok"⟩]⟩, true) :=
  update_status_nonverifying_frame _ "a" .in_progress none "T"
    [] [⟨"b", "db", .verified, none, none, some "T0", some "ok"⟩]
    ⟨"a", "da", .pending, some "go test", none, none, none⟩
    rfl (by simp) rfl (Or.inr (Or.inl rfl))

/-- C10: when `harness.json` exists but its content does not parse,
`increment_session` returns `1` and the file state — including its raw
bytes — is exactly what it was: nothing is appended, nothing rewritten. -/
theorem increment_session_corrupt_untouched (raw now : String) :
    increment_session (.unparsable raw) now = (.unparsable raw, 1) := rfl

/-- C1: the stop gate is a strict ordered check. With no harness it allows
unconditionally; with a harness but no loadable registry it allows
(fail-open); with implemented-but-unverified features it blocks naming the
first 5 of them (at most 5); only when that set is empty and some feature
has status `failed` does it block naming the first 3 of those (at most 3);
otherwise it allows. A single decision value is produced per stop, so the
two blocking categories are never aggregated, and the implemented-
unverified block takes precedence over the failed block. -/
theorem stop_verification_gate (fl : FeatureList) :
    (∀ loaded, stop_verification false loaded = .allow) ∧
    stop_verification true none = .allow ∧
    (fl.get_implemented_unverified ≠ [] →
      stop_verification true (some fl)
        = .block "Unverified features detected" (fl.get_implemented_unverified.take 5) ∧
      (fl.get_implemented_unverified.take 5).length ≤ 5) ∧
    (fl.get_implemented_unverified = [] →
      fl.features.filter (fun f => f.status == .failed) ≠ [] →
      stop_verification true (some fl)
        = .block "Failed verifications detected"
            ((fl.features.filter (fun f => f.status == .failed)).take 3) ∧
      ((fl.features.filter (fun f => f.status == .failed)).take 3).length ≤ 3) ∧
    (fl.get_implemented_unverified = [] →
      fl.features.filter (fun f => f.status == .failed) = [] →
      stop_verification true (some fl) = .allow) := by
  refine ⟨fun loaded => rfl, rfl, ?_, ?_, ?_⟩
  · intro h
    have hne : fl.get_implemented_unverified.isEmpty = false := by
      cases hu : fl.get_implemented_unverified with
      | nil => exact absurd hu h
      | cons a t => rfl
    constructor
    · simp [stop_verification, hne]
    · simp
  · intro h1 h2
    have hfe : (fl.features.filter (fun f => f.status == .failed)).isEmpty = false := by
      cases hu : fl.features.filter (fun f => f.status == .failed) with
      | nil => exact absurd hu h2
      | cons a t => rfl
    constructor
    · simp [stop_verification, h1, hfe]
    · simp
  · intro h1 h2
    simp [stop_verification, h1, h2]

/-- C1 (witness): the spec scenario — a registry with the single feature
`auth` in status `implemented` blocks naming `auth`; after
`update_status("auth", verified, "ok")` the gate allows. -/
theorem stop_verification_gate_witness :
    stop_verification true (some (FeatureList.mk "1.0.0" "c" "u"
        [⟨"auth", "Auth", .implemented, none, none, none, none⟩]))
      = .block "Unverified features detected"
          [⟨"auth", "Auth", .implemented, none, none, none, none⟩] ∧
    stop_verification true
        (some ((FeatureList.mk "1.0.0" "c" "u"
          [⟨"auth", "Auth", .implemented, none, none, none, none⟩]).update_status
            "auth" .verified (some "ok") "T").1)
      = .allow := by
  constructor
  · exact ((stop_verification_gate _).2.2.1 (by decide)).1.trans (by decide)
  · exact (stop_verification_gate _).2.2.2.2 (by decide) (by decide)

/-- C5: `get_next_feature` returns the first `in_progress` feature in
registry order when one exists; else the first `pending`; else the first
`implemented` (so `none` exactly when no feature is in those three states,
e.g. when every feature is `verified` or `failed`). -/
theorem get_next_feature_priority (fl : FeatureList) :
    ((∃ f ∈ fl.features, f.status = .in_progress) →
      fl.get_next_feature = fl.features.find? (fun f => f.status == .in_progress)) ∧
    ((∀ f ∈ fl.features, f.status ≠ .in_progress) →
      (∃ f ∈ fl.features, f.status = .pending) →
      fl.get_next_feature = fl.features.find? (fun f => f.status == .pending)) ∧
    ((∀ f ∈ fl.features, f.status ≠ .in_progress) →
      (∀ f ∈ fl.features, f.status ≠ .pending) →
      fl.get_next_feature = fl.features.find? (fun f => f.status == .implemented)) ∧
    ((∀ f ∈ fl.features, f.status = .verified ∨ f.status = .failed) →
      fl.get_next_feature = none) := by
  refine ⟨?_, ?_, ?_, ?_⟩
  · rintro ⟨f, hmem, hs⟩
    cases h : fl.features.find? (fun f => f.status == .in_progress) with
    | some g => simp [FeatureList.get_next_feature, h]
    | none =>
      have := List.find?_eq_none.mp h f hmem
      simp [hs] at this
  · intro hni hex
    have h1 : fl.features.find? (fun f => f.status == .in_progress) = none :=
      List.find?_eq_none.mpr (fun x hx => by simp [hni x hx])
    rcases hex with ⟨f, hmem, hs⟩
    cases h : fl.features.find? (fun f => f.status == .pending) with
    | some g => simp [FeatureList.get_next_feature, h1, h]
    | none =>
      have := List.find?_eq_none.mp h f hmem
      simp [hs] at this
  · intro hni hnp
    have h1 : fl.features.find? (fun f => f.status == .in_progress) = none :=
      List.find?_eq_none.mpr (fun x hx => by simp [hni x hx])
    have h2 : fl.features.find? (fun f => f.status == .pending) = none :=
      List.find?_eq_none.mpr (fun x hx => by simp [hnp x hx])
    simp [FeatureList.get_next_feature, h1, h2]
  · intro hall
    have h1 : fl.features.find? (fun f => f.status == .in_progress) = none :=
      List.find?_eq_none.mpr (fun x hx => by rcases hall x hx with h | h <;> simp [h])
    have h2 : fl.features.find? (fun f => f.status == .pending) = none :=
      List.find?_eq_none.mpr (fun x hx => by rcases hall x hx with h | h <;> simp [h])
    have h3 : fl.features.find? (fun f => f.status == .implemented) = none :=
      List.find?_eq_none.mpr (fun x hx => by rcases hall x hx with h | h <;> simp [h])
    simp [FeatureList.get_next_feature, h1, h2, h3]

/-- C5 (witness): the spec example — features
`[A:pending, B:in_progress, C:implemented]` yield `B`. -/
theorem get_next_feature_priority_witness :
    (FeatureList.mk "1.0.0" "c" "u"
        [⟨"A", "a", .pending, none, none, none, none⟩,
         ⟨"B", "b", .in_progress, none, none, none, none⟩,
         ⟨"C", "c", .implemented, none, none, none, none⟩]).get_next_feature
      = some ⟨"B", "b", .in_progress, none, none, none, none⟩ :=
  ((get_next_feature_priority _).1 (by decide)).trans (by decide)

/-- C6 (amended): `find_recent_checkpoint` returns `none` when the
memories directory is absent; any file it returns is a checkpoint artifact
from the listing whose age is within the bound; it returns `none` exactly
when no artifact in the listing is within the bound; and the file returned
is the first fresh one in scan order — all `auto-checkpoint-*.md` files
(in directory-enumeration order) before all `checkpoint-*.md` files — not
necessarily the most recently modified one. -/
theorem find_recent_checkpoint_first_fresh
    (listing : List MemFile) (now max_age_hours : Int) :
    find_recent_checkpoint false listing now max_age_hours = none ∧
    (∀ f, find_recent_checkpoint true listing now max_age_hours = some f →
      f ∈ listing ∧ (matchesAutoPattern f.name || matchesManualPattern f.name) = true ∧
      now - f.mtime < max_age_hours * 3600) ∧
    (find_recent_checkpoint true listing now max_age_hours = none ↔
      ∀ f ∈ listing, (matchesAutoPattern f.name || matchesManualPattern f.name) = true →
        ¬(now - f.mtime < max_age_hours * 3600)) ∧
    (∀ f, (listing.filter (fun g => matchesAutoPattern g.name)).find?
        (fun g => now - g.mtime < max_age_hours * 3600) = some f →
      find_recent_checkpoint true listing now max_age_hours = some f) ∧
    ((listing.filter (fun g => matchesAutoPattern g.name)).find?
        (fun g => now - g.mtime < max_age_hours * 3600) = none →
      find_recent_checkpoint true listing now max_age_hours
        = (listing.filter (fun g => matchesManualPattern g.name)).find?
            (fun g => now - g.mtime < max_age_hours * 3600)) := by
  have heq : find_recent_checkpoint true listing now max_age_hours
      = match (listing.filter (fun g => matchesAutoPattern g.name)).find?
            (fun g => now - g.mtime < max_age_hours * 3600) with
        | some f => some f
        | none => (listing.filter (fun g => matchesManualPattern g.name)).find?
            (fun g => now - g.mtime < max_age_hours * 3600) := rfl
  refine ⟨rfl, ?_, ?_, ?_, ?_⟩
  · intro f h
    rw [heq] at h
    cases ha : (listing.filter (fun g => matchesAutoPattern g.name)).find?
        (fun g => now - g.mtime < max_age_hours * 3600) with
    | some g =>
      rw [ha] at h
      have h2 : some g = some f := h
      injection h2 with h3
      subst h3
      have hm := List.mem_filter.mp (List.mem_of_find?_eq_some ha)
      have hp := List.find?_some ha
      exact ⟨hm.1, by simp [hm.2], by simpa using hp⟩
    | none =>
      rw [ha] at h
      have h2 : (listing.filter (fun g => matchesManualPattern g.name)).find?
          (fun g => now - g.mtime < max_age_hours * 3600) = some f := h
      have hm := List.mem_filter.mp (List.mem_of_find?_eq_some h2)
      have hp := List.find?_some h2
      exact ⟨hm.1, by simp [hm.2], by simpa using hp⟩
  · constructor
    · intro h f hmem hpat
      rw [heq] at h
      cases ha : (listing.filter (fun g => matchesAutoPattern g.name)).find?
          (fun g => now - g.mtime < max_age_hours * 3600) with
      | some g =>
        rw [ha] at h
        exact Option.noConfusion h
      | none =>
        rw [ha] at h
        have hb : (listing.filter (fun g => matchesManualPattern g.name)).find?
            (fun g => now - g.mtime < max_age_hours * 3600) = none := h
        have hpat2 : matchesAutoPattern f.name = true ∨ matchesManualPattern f.name = true := by
          simpa using hpat
        rcases hpat2 with hq | hq
        · have := List.find?_eq_none.mp ha f (List.mem_filter.mpr ⟨hmem, hq⟩)
          simpa using this
        · have := List.find?_eq_none.mp hb f (List.mem_filter.mpr ⟨hmem, hq⟩)
          simpa using this
    · intro hall
      have ha : (listing.filter (fun g => matchesAutoPattern g.name)).find?
          (fun g => now - g.mtime < max_age_hours * 3600) = none := by
        refine List.find?_eq_none.mpr (fun x hx => ?_)
        rw [List.mem_filter] at hx
        simpa using hall x hx.1 (by simp [hx.2])
      have hb : (listing.filter (fun g => matchesManualPattern g.name)).find?
          (fun g => now - g.mtime < max_age_hours * 3600) = none := by
        refine List.find?_eq_none.mpr (fun x hx => ?_)
        rw [List.mem_filter] at hx
        simpa using hall x hx.1 (by simp [hx.2])
      rw [heq, ha]
      exact hb
  · intro f h
    rw [heq, h]
  · intro h
    rw [heq, h]

/-- C6 (witness): with a single auto checkpoint 1800 seconds old and a one
hour bound, the artifact is returned; the stale 7200-second-old variant is
rejected by the none-iff-stale clause. -/
theorem find_recent_checkpoint_first_fresh_witness :
    find_recent_checkpoint true [⟨"auto-checkpoint-w.md", 8200⟩] 10000 1
      = some ⟨"auto-checkpoint-w.md", 8200⟩ ∧
    find_recent_checkpoint true [⟨"auto-checkpoint-w.md", 2800⟩] 10000 1 = none :=
  ⟨(find_recent_checkpoint_first_fresh [⟨"auto-checkpoint-w.md", 8200⟩] 10000 1).2.2.2.1
      ⟨"auto-checkpoint-w.md", 8200⟩ (by decide),
   ((find_recent_checkpoint_first_fresh [⟨"auto-checkpoint-w.md", 2800⟩] 10000 1).2.2.1).mpr
      (by decide)⟩

/-- C6 (counterexample): two fresh artifacts — an auto checkpoint modified
at 8200 and a manual checkpoint modified more recently at 9700, both
within the one-hour bound at `now = 10000` — and the function returns the
auto one, which is not the most recently modified artifact. -/
theorem find_recent_checkpoint_not_most_recent_cex :
    find_recent_checkpoint true
        [⟨"auto-checkpoint-a.md", 8200⟩, ⟨"checkpoint-b.md", 9700⟩] 10000 1
      = some ⟨"auto-checkpoint-a.md", 8200⟩ ∧
    matchesManualPattern "checkpoint-b.md" = true ∧
    ((10000 : Int) - 9700 < 1 * 3600) ∧ ((8200 : Int) < 9700) := by
  refine ⟨?_, ?_, ?_, ?_⟩ <;> decide

/-- `dedupFirst` only consults the seen set through membership of keys, so
seen sets agreeing on every key query are interchangeable. -/
theorem dedupFirst_congr (seen₁ seen₂ : List String)
    (h : ∀ x, seen₁.any (fun k => k == x) = seen₂.any (fun k => k == x)) :
    (l : List (String × String)) → dedupFirst seen₁ l = dedupFirst seen₂ l
  | [] => rfl
  | s :: rest => by
    unfold dedupFirst
    rw [h s.1]
    by_cases hc : seen₂.any (fun k => k == s.1) = true
    · rw [if_pos hc, if_pos hc]
      exact dedupFirst_congr seen₁ seen₂ h rest
    · rw [if_neg hc, if_neg hc]
      exact congrArg (s :: ·)
        (dedupFirst_congr (s.1 :: seen₁) (s.1 :: seen₂)
          (fun x => by simp [List.any_cons, h x]) rest)

/-- Everything `dedupFirst` emits comes from the input list and carries a
key that was not in the seen set. -/
theorem mem_dedupFirst (x : String × String) :
    (seen : List String) → (l : List (String × String)) →
    x ∈ dedupFirst seen l → x ∈ l ∧ seen.any (fun k => k == x.1) = false
  | seen, [], h => absurd h (List.not_mem_nil x)
  | seen, s :: rest, h => by
    unfold dedupFirst at h
    by_cases hc : seen.any (fun k => k == s.1) = true
    · rw [if_pos hc] at h
      have hr := mem_dedupFirst x seen rest h
      exact ⟨List.mem_cons_of_mem _ hr.1, hr.2⟩
    · rw [if_neg hc] at h
      rcases List.mem_cons.mp h with h1 | h1
      · subst h1
        refine ⟨List.mem_cons_self _ _, ?_⟩
        cases hcc : seen.any (fun k => k == x.1) with
        | false => rfl
        | true => exact absurd hcc hc
      · have hr := mem_dedupFirst x (s.1 :: seen) rest h1
        have h2 := hr.2
        rw [List.any_cons] at h2
        cases hb : seen.any (fun k => k == x.1) with
        | false => exact ⟨List.mem_cons_of_mem _ hr.1, rfl⟩
        | true => rw [hb] at h2; simp at h2

/-- The keys `dedupFirst` emits are pairwise distinct. -/
theorem dedupFirst_pairwise :
    (seen : List String) → (l : List (String × String)) →
    (dedupFirst seen l).Pairwise (fun a b => a.1 ≠ b.1)
  | _, [] => List.Pairwise.nil
  | seen, s :: rest => by
    unfold dedupFirst
    by_cases hc : seen.any (fun k => k == s.1) = true
    · rw [if_pos hc]
      exact dedupFirst_pairwise seen rest
    · rw [if_neg hc]
      refine List.Pairwise.cons ?_ (dedupFirst_pairwise (s.1 :: seen) rest)
      intro b hb
      have h2 := (mem_dedupFirst b (s.1 :: seen) rest hb).2
      rw [List.any_cons] at h2
      cases hb1 : (s.1 == b.1) with
      | false =>
        intro he
        rw [he] at hb1
        simp at hb1
      | true => rw [hb1] at h2; simp at h2

/-- Folding `insertIfAbsent` over a signal list is first-occurrence-wins
deduplication appended to the accumulator, with the keys of the accumulator as
the initially seen set. -/
theorem foldl_insertIfAbsent_eq_dedupFirst :
    (sigs : List (String × String)) → (acc : List (String × String)) →
    sigs.foldl (fun m s => insertIfAbsent m s.1 s.2) acc
      = acc ++ dedupFirst (acc.map (fun q => q.1)) sigs
  | [], acc => by simp [dedupFirst]
  | s :: rest, acc => by
    rw [List.foldl_cons]
    unfold dedupFirst
    have hany : (acc.map (fun q => q.1)).any (fun k => k == s.1)
        = acc.any (fun q => q.1 == s.1) := by
      induction acc with
      | nil => rfl
      | cons a t ih => simp [List.any_cons, ih]
    by_cases hc : acc.any (fun q => q.1 == s.1) = true
    · have hins : insertIfAbsent acc s.1 s.2 = acc := by
        unfold insertIfAbsent
        rw [if_pos hc]
      rw [hins, foldl_insertIfAbsent_eq_dedupFirst rest acc, hany, if_pos hc]
    · have hins : insertIfAbsent acc s.1 s.2 = acc ++ [s] := by
        unfold insertIfAbsent
        rw [if_neg hc]
      rw [hins, foldl_insertIfAbsent_eq_dedupFirst rest (acc ++ [s]), hany, if_neg hc]
      have hcong := dedupFirst_congr ((acc ++ [s]).map (fun q => q.1))
          (s.1 :: acc.map (fun q => q.1))
          (fun x => by simp [List.any_append, List.any_cons, Bool.or_comm]) rest
      rw [List.append_assoc, hcong]
      rfl

/-- Per-stage reading of one message: each fold of `processMsg` is the
generic signal fold over the `(path, action)` signals of that stage. -/
theorem processMsg_eq (acc : List (String × String)) (msg : TranscriptMsg) :
    processMsg acc msg
      = (msgSignals msg).foldl (fun m s => insertIfAbsent m s.1 s.2) acc := by
  have hplain : ∀ (l : List String) (act : String) (a : List (String × String)),
      l.foldl (fun m p => insertIfAbsent m p act) a
        = (l.map (fun p => (p, act))).foldl (fun m s => insertIfAbsent m s.1 s.2) a := by
    intro l act a
    rw [List.foldl_map]
  have hguarded : ∀ (l : List String) (act : String) (a : List (String × String)),
      l.foldl (fun m p => if is_likely_file_path p then insertIfAbsent m p act else m) a
        = ((l.filter is_likely_file_path).map (fun p => (p, act))).foldl
            (fun m s => insertIfAbsent m s.1 s.2) a := by
    intro l act
    induction l with
    | nil => intro a; rfl
    | cons p t ih =>
      intro a
      cases hp : is_likely_file_path p with
      | true => simp [hp, ih]
      | false => simp [hp, ih]
  show (msg.modifiedMatches.foldl
      (fun a p => if is_likely_file_path p then insertIfAbsent a p "modified" else a)
      (msg.createdMatches.foldl
        (fun a p => if is_likely_file_path p then insertIfAbsent a p "created" else a)
        (msg.editMatches.foldl (fun a p => insertIfAbsent a p "modified")
          (msg.writeMatches.foldl (fun a p => insertIfAbsent a p "created") acc))))
    = _
  rw [hplain, hplain, hguarded, hguarded]
  unfold msgSignals
  rw [List.foldl_append, List.foldl_append, List.foldl_append]

/-- `get_modified_files` is the generic signal fold over the signals of the
transcript in order. -/
theorem get_modified_files_foldl (t : List TranscriptMsg) :
    ∀ acc, t.foldl processMsg acc
      = (transcriptSignals t).foldl (fun m s => insertIfAbsent m s.1 s.2) acc := by
  induction t with
  | nil => intro acc; rfl
  | cons m rest ih =>
    intro acc
    rw [List.foldl_cons, ih, processMsg_eq]
    rw [show transcriptSignals (m :: rest) = msgSignals m ++ transcriptSignals rest from rfl,
      List.foldl_append]

/-- `get_modified_files` equals first-occurrence-wins deduplication of the
signals of the transcript. -/
theorem get_modified_files_eq_dedup (t : List TranscriptMsg) :
    get_modified_files t = dedupFirst [] (transcriptSignals t) := by
  rw [show get_modified_files t = t.foldl processMsg [] from rfl,
    get_modified_files_foldl t [], foldl_insertIfAbsent_eq_dedupFirst]
  rfl

/-- C7: `get_modified_files` deduplicates by path with the first occurrence
winning — it equals first-occurrence-wins deduplication (`dedupFirst`) of
the transcript signals in processing order, every path appears at most
once in the result, and in particular a Write-tool signal for `src/a.go`
records `("src/a.go", "created")` and a subsequent Edit-tool signal for
the same path does not override that action. -/
theorem get_modified_files_first_wins (t : List TranscriptMsg) :
    get_modified_files t = dedupFirst [] (transcriptSignals t) ∧
    (get_modified_files t).Pairwise (fun a b => a.1 ≠ b.1) ∧
    get_modified_files
        [⟨["src/a.go"], [], [], []⟩, ⟨[], ["src/a.go"], [], []⟩]
      = [("src/a.go", "created")] := by
  have heq := get_modified_files_eq_dedup t
  refine ⟨heq, ?_, by decide⟩
  rw [heq]
  exact dedupFirst_pairwise [] (transcriptSignals t)

/-- C8 (amended): the path-plausibility filter guards only the
natural-language signals: every path in the result either passes
`_is_likely_file_path` or was captured from a Write- or Edit-tool signal,
which bypasses the filter; consequently the guarantee of the claim holds for
all result paths only under the assumption that every tool-signal capture
passes the filter. -/
theorem get_modified_files_filter_scope (t : List TranscriptMsg) :
    ((∀ msg ∈ t, (∀ p ∈ msg.writeMatches, is_likely_file_path p = true) ∧
        (∀ p ∈ msg.editMatches, is_likely_file_path p = true)) →
      ∀ pa ∈ get_modified_files t, is_likely_file_path pa.1 = true) ∧
    (∀ pa ∈ get_modified_files t, is_likely_file_path pa.1 = true ∨
      ∃ msg ∈ t, pa.1 ∈ msg.writeMatches ∨ pa.1 ∈ msg.editMatches) := by
  have horigin : ∀ pa ∈ get_modified_files t, is_likely_file_path pa.1 = true ∨
      ∃ msg ∈ t, pa.1 ∈ msg.writeMatches ∨ pa.1 ∈ msg.editMatches := by
    intro pa hpa
    rw [get_modified_files_eq_dedup t] at hpa
    have hmem := (mem_dedupFirst pa [] (transcriptSignals t) hpa).1
    rw [show transcriptSignals t = t.flatMap msgSignals from rfl] at hmem
    rcases List.mem_flatMap.mp hmem with ⟨msg, hmsg, hin⟩
    rw [show msgSignals msg
        = ((msg.writeMatches.map (fun p => (p, "created"))
            ++ msg.editMatches.map (fun p => (p, "modified")))
          ++ (msg.createdMatches.filter is_likely_file_path).map (fun p => (p, "created")))
          ++ (msg.modifiedMatches.filter is_likely_file_path).map
              (fun p => (p, "modified")) from rfl] at hin
    rcases List.mem_append.mp hin with h1 | h1
    · rcases List.mem_append.mp h1 with h2 | h2
      · rcases List.mem_append.mp h2 with h3 | h3
        · rcases List.mem_map.mp h3 with ⟨p, hp, hpe⟩
          exact Or.inr ⟨msg, hmsg, Or.inl (by rw [← hpe]; exact hp)⟩
        · rcases List.mem_map.mp h3 with ⟨p, hp, hpe⟩
          exact Or.inr ⟨msg, hmsg, Or.inr (by rw [← hpe]; exact hp)⟩
      · rcases List.mem_map.mp h2 with ⟨p, hp, hpe⟩
        refine Or.inl ?_
        rw [← hpe]
        exact (List.mem_filter.mp hp).2
    · rcases List.mem_map.mp h1 with ⟨p, hp, hpe⟩
      refine Or.inl ?_
      rw [← hpe]
      exact (List.mem_filter.mp hp).2
  refine ⟨?_, horigin⟩
  intro hfiltered pa hpa
  rcases horigin pa hpa with h | ⟨msg, hmsg, h | h⟩
  · exact h
  · exact (hfiltered msg hmsg).1 pa.1 h
  · exact (hfiltered msg hmsg).2 pa.1 h

/-- C8 (witness): on a transcript whose tool signals all pass the filter,
every extracted path passes the filter. -/
theorem get_modified_files_filter_scope_witness :
    (get_modified_files [⟨["src/a.go"], [], ["notes.md"], []⟩]).all
        (fun pa => is_likely_file_path pa.1) = true :=
  List.all_eq_true.mpr
    ((get_modified_files_filter_scope [⟨["src/a.go"], [], ["notes.md"], []⟩]).1 (by decide))

/-- C8 (counterexample): a Write-tool capture that is a URL flows into the
result unfiltered — the extracted path `http://example.com/a` starts with
`http`, so not every result path satisfies the "is not a URL" condition. -/
theorem get_modified_files_url_cex :
    get_modified_files [⟨["http://example.com/a"], [], [], []⟩]
      = [("http://example.com/a", "created")] ∧
    strStartsWith "http://example.com/a" "http" = true ∧
    is_likely_file_path "http://example.com/a" = false := by
  refine ⟨by decide, by decide, by decide⟩
